import Mathlib

set_option maxHeartbeats 1000000

/- Rational arithmetic appears inside decidable statements about
concrete documents; the core arithmetic must be unfoldable for kernel
evaluation. -/
set_option allowUnsafeReducibility true
attribute [semireducible] Rat.add Rat.mul Rat.inv Rat.sub Rat.ofScientific

namespace Invoices

/-! # Shallow embedding of `scripts/extract_invoices.py`

Python strings are modelled as lists of characters (`PStr`); XML element
trees (from `xml.etree.ElementTree`) are modelled by the mutual inductive
`XNode`/`XForest`.  Identity-keyed parent lookups (`build_parent_map`)
are modelled by paths (lists of child indices) from the root: in a tree,
element identity corresponds to the unique path of the element, the root
has no parent entry, and every other node's parent is the path with the
last index removed.  Numeric values (Python floats) are modelled as exact
rationals. -/

/-- Python strings as lists of characters. -/
abbrev PStr := List Char

/-! ## Python string primitives -/

/-- Python whitespace for `str.strip` / `\s` (ASCII core). -/
def pyWS (c : Char) : Bool := c.isWhitespace

/-- Left part of Python `str.strip`. -/
def pyStripL (s : PStr) : PStr := s.dropWhile pyWS

/-- Right part of Python `str.strip`. -/
def pyStripR (s : PStr) : PStr := (s.reverse.dropWhile pyWS).reverse

/-- Python `str.strip()`: remove leading and trailing whitespace. -/
def pyStrip (s : PStr) : PStr := pyStripR (pyStripL s)

/-- Python `str.lower()` (ASCII). -/
def pyLower (s : PStr) : PStr := s.map Char.toLower

/-- Python `a or b` on strings: `a` when non-empty, else `b`. -/
def pyOr (a b : PStr) : PStr := if a = [] then b else a

/-- Python `str.isdigit()` (ASCII digits): non-empty and all digits. -/
def pyIsDigitStr (s : PStr) : Bool := !s.isEmpty && s.all Char.isDigit

/-- Python `str.endswith(suffix)`. -/
def pyEndsWith (s suf : PStr) : Bool := suf.isSuffixOf s

/-- Python `str.split(sep)` for a one-character separator: always returns
at least one (possibly empty) part; `''.split(',') == ['']`. -/
def pySplit (sep : Char) : PStr → List PStr
  | [] => [[]]
  | x :: xs =>
    match pySplit sep xs with
    | [] => [[]]
    | p :: ps => if x = sep then [] :: p :: ps else (x :: p) :: ps

/-- Remove a leading literal sequence: `chopStart pat s = some r` iff
`s = pat ++ r` (used to match literal regex fragments). -/
def chopStart : PStr → PStr → Option PStr
  | [], s => some s
  | _ :: _, [] => none
  | p :: ps, c :: cs => if c = p then chopStart ps cs else none

/-- Numeric value of a digit run (base 10). -/
def digitsVal (l : PStr) : Nat := l.foldl (fun a c => a * 10 + (c.toNat - 48)) 0

/-! ## Model of Python `float(...)` on already-stripped text

Models the decimal core of the `float` builtin as an exact rational:
optional sign, then either an integer part with optional fraction or a
bare fraction, then an optional exponent; anything else (including the
empty string) is rejected.  (`inf`/`nan` spellings, underscore digit
separators and non-ASCII digits are outside the fragment exercised by
the program and are modelled as rejected.) -/

/-- Parse the optional exponent suffix `[eE][+-]?digits`; `some 0` on
empty input, `none` when malformed. -/
def expPart? : PStr → Option Int
  | [] => some 0
  | c :: t =>
    if c = 'e' ∨ c = 'E' then
      let (es, t2) : Int × PStr :=
        match t with
        | '+' :: u => (1, u)
        | '-' :: u => (-1, u)
        | u => (1, u)
      let ds := t2.takeWhile Char.isDigit
      if ds ≠ [] ∧ t2.drop ds.length = [] then some (es * (digitsVal ds : Int)) else none
    else none

/-- The decimal core of Python `float(s)` as an exact rational, `none`
when `s` is not a valid float literal. -/
def pyFloat? (s : PStr) : Option ℚ :=
  let (sgn, r1) : ℚ × PStr :=
    match s with
    | '+' :: t => (1, t)
    | '-' :: t => (-1, t)
    | t => (1, t)
  let ip := r1.takeWhile Char.isDigit
  let r2 := r1.drop ip.length
  match r2 with
  | '.' :: r3 =>
    let fp := r3.takeWhile Char.isDigit
    let r4 := r3.drop fp.length
    if ip = [] ∧ fp = [] then none
    else
      match expPart? r4 with
      | some e => some (sgn * ((digitsVal ip : ℚ) + (digitsVal fp : ℚ) / 10 ^ fp.length) * (10 : ℚ) ^ e)
      | none => none
  | _ =>
    if ip = [] then none
    else
      match expPart? r2 with
      | some e => some (sgn * (digitsVal ip : ℚ) * (10 : ℚ) ^ e)
      | none => none

/-! ## The document tree -/

mutual
/-- An element of the report document: tag, attributes, text, children.
Tags carry the expanded XML namespace, e.g.
`"\x7burn:crystal-reports:schemas:report-detail\x7dField"`. -/
inductive XNode where
  | mk : PStr → List (PStr × PStr) → Option PStr → XForest → XNode
/-- A list of sibling elements (a separate inductive so that mutual
structural recursion over the tree is available). -/
inductive XForest where
  | nil : XForest
  | cons : XNode → XForest → XForest
end

def XNode.tag : XNode → PStr
  | .mk t _ _ _ => t

def XNode.attrs : XNode → List (PStr × PStr)
  | .mk _ a _ _ => a

def XNode.text : XNode → Option PStr
  | .mk _ _ x _ => x

def XNode.children : XNode → XForest
  | .mk _ _ _ c => c

/-- Child at index `i` (models list indexing of `list(p)` children). -/
def XForest.get? : XForest → Nat → Option XNode
  | .nil, _ => none
  | .cons c _, 0 => some c
  | .cons _ cs, n + 1 => XForest.get? cs n

/-- The children of a forest as a plain list. -/
def XForest.toList : XForest → List XNode
  | .nil => []
  | .cons c cs => c :: cs.toList

/-- All proper descendants of the elements of a forest, in document
(preorder) order: each element precedes its own descendants. -/
def descendF : XForest → List XNode
  | .nil => []
  | .cons (.mk t a x cc) cs => (XNode.mk t a x cc) :: (descendF cc ++ descendF cs)

/-- All proper descendants of a node in document order: the candidate
set of an ElementTree `'.//...'` search rooted at that node. -/
def descend (n : XNode) : List XNode := descendF n.children

/-- Paths (child-index lists) of all proper descendants of a forest, in
document order, with the first element of the forest at index `i`. -/
def descendPathsF : XForest → Nat → List (List Nat)
  | .nil, _ => []
  | .cons (.mk _ _ _ cc) cs, i =>
      (i :: []) :: (((descendPathsF cc 0).map (fun q => i :: q)) ++ descendPathsF cs (i + 1))

/-- Paths of all proper descendants of a node, in document order. -/
def descendPaths (n : XNode) : List (List Nat) := descendPathsF n.children 0

/-- The node addressed by a path of child indices. -/
def getNode? : XNode → List Nat → Option XNode
  | n, [] => some n
  | n, i :: p =>
    match n.children.get? i with
    | some c => getNode? c p
    | none => none

/-- A path addresses a node of the document. -/
def isValidPath (root : XNode) (p : List Nat) : Bool := (getNode? root p).isSome

/-- Models a lookup in the `build_parent_map` index: the root (`[]`) has
no parent entry; any other node's parent is the path without its last
index. -/
def parentPath? : List Nat → Option (List Nat)
  | [] => none
  | x :: xs => some ((x :: xs).dropLast)

/-- First attribute value with the given name (models `elem.get(key)` /
`[@key="..."]` matching). -/
def getAttr (n : XNode) (k : PStr) : Option PStr :=
  (n.attrs.find? (fun a => decide (a.1 = k))).map Prod.snd

/-! ## Namespace and field-identifier constants of the script -/

/-- The expanded `cr:` namespace of `NS` in the script. -/
def crNS : String := "\x7burn:crystal-reports:schemas:report-detail\x7d"

/-- The expanded tag for a `cr:`-qualified local name. -/
def crTag (localName : String) : PStr := (crNS ++ localName).data

def fieldNameAttr : PStr := "FieldName".data
def groupSuffix : PStr := "Group".data
def invHdrName : PStr := "\x7b@InvHdr\x7d".data
def ymmName : PStr := "\x7b@YmmEngLic\x7d".data
def partsName : PStr := "\x7b@PartsTotal\x7d".data
def laborName : PStr := "\x7b@LaborTotal\x7d".data
def discountName : PStr := "\x7b@DiscountTotal\x7d".data
def hazmatName : PStr := "\x7b@HazMat\x7d".data
def suppliesName : PStr := "\x7b@Supplies\x7d".data
def taxName : PStr := "\x7b@TaxTotal\x7d".data
def totalName : PStr := "\x7b@Total\x7d".data

/-! ## The script's functions -/

/-- Models `get_text(elem, tag)`: the stripped text of the first direct child
`cr:<tag>` of `elem`, or `''` when `elem` is `None`, the child is
missing, or its text is falsy. -/
def get_text (elem : Option XNode) (tagName : String) : PStr :=
  match elem with
  | none => []
  | some e =>
    match e.children.toList.find? (fun c => decide (c.tag = crTag tagName)) with
    | some tv =>
      match tv.text with
      | some t => if t = [] then [] else pyStrip t
      | none => []
    | none => []

/-- The `find_ancestor_by_tag` walk, on the reversed path: drop the last
index (move to the parent), test the tag suffix, repeat. -/
def faqAux (root : XNode) (tag : PStr) : List Nat → Option (List Nat)
  | [] => none
  | _ :: rq =>
    match getNode? root rq.reverse with
    | none => none
    | some n => if pyEndsWith n.tag tag then some rq.reverse else faqAux root tag rq

/-- Models `find_ancestor_by_tag(elem, parent_map, tag)`: climb the parent map
to the nearest ancestor whose tag name ends with `tag`; `None` when the
chain is exhausted. -/
def find_ancestor_by_tag (root : XNode) (tag : PStr) (p : List Nat) : Option (List Nat) :=
  faqAux root tag p.reverse

/-- The proper-ancestor paths of `p` on the reversed path, nearest
first. -/
def ancestorPathsAux : List Nat → List (List Nat)
  | [] => []
  | _ :: rq => rq.reverse :: ancestorPathsAux rq

/-- The proper-ancestor paths of `p` (the parent chain recorded by
`build_parent_map`), nearest ancestor first, ending with the root `[]`. -/
def ancestorPaths (p : List Nat) : List (List Nat) := ancestorPathsAux p.reverse

/-- A `cr:Field` element whose `FieldName` attribute equals `name`
(the node set matched by `cr:Field[@FieldName="name"]`). -/
def isFieldNamed (name : PStr) (n : XNode) : Bool :=
  decide (n.tag = crTag "Field") &&
    (match getAttr n fieldNameAttr with
     | some v => decide (v = name)
     | none => false)

/-- Models `elem.find('.//cr:Field[@FieldName="name"]', NS)`: first matching
proper descendant in document order. -/
def findDescField (n : XNode) (name : PStr) : Option XNode :=
  (descend n).find? (isFieldNamed name)

/-- Models `find_field_value(group_elem, field_name)`: the `FormattedValue`
text, else the `Value` text, of the first matching descendant field;
`''` when the context is `None` or no descendant matches. -/
def find_field_value (gOpt : Option XNode) (name : PStr) : PStr :=
  match gOpt with
  | none => []
  | some g =>
    match findDescField g name with
    | some f => pyOr (get_text (some f) "FormattedValue") (get_text (some f) "Value")
    | none => []

/-- The preprocessing pipeline of `parse_vehicle_fields`: strip the
whole string, remove an optional leading `'Vehicle:'` label
(checked case-insensitively, 8 characters removed from the original),
then split on commas into trimmed parts. -/
def vehParts (vehicle_str : PStr) : List PStr :=
  let s0 := pyStrip vehicle_str
  let s := if List.isPrefixOf "vehicle:".data (pyLower s0) then pyStrip (s0.drop 8) else s0
  (pySplit ',' s).map pyStrip

/-- Models `parse_vehicle_fields(vehicle_str)`: strip an optional leading
`'Vehicle:'` label (case-insensitively), split on commas into trimmed
parts, and pick truck / license / unit positionally. -/
def parse_vehicle_fields (vehicle_str : PStr) : PStr × PStr × PStr :=
  let parts := vehParts vehicle_str
  let truck := parts.headD []
  if 3 ≤ parts.length then
    if pyIsDigitStr ((parts.getLastD []).filter (fun c => c ≠ ' ')) then
      (truck, parts.getD (parts.length - 2) [], parts.getLastD [])
    else
      (truck, parts.getLastD [], [])
  else if parts.length = 2 then
    (truck, parts.getLastD [], [])
  else
    (truck, [], [])

/-- Match of the regex `(?:Invoice:?\s*)(\d+)` anchored at the start of
`s`, returning the captured digit run.  (The literal, optional colon,
`\s*` and `\d+` pieces consume disjoint character classes, so greedy
matching without further backtracking is exact.) -/
def matchInvAt (s : PStr) : Option PStr :=
  match chopStart "Invoice".data s with
  | none => none
  | some r1 =>
    let r2 := match r1 with
      | ':' :: t => t
      | t => t
    let r3 := r2.dropWhile pyWS
    let ds := r3.takeWhile Char.isDigit
    if ds = [] then none else some ds

/-- Match of `\d{1,2}/\d{1,2}/\d{2,4}` anchored at the start of `s`.
A digit run longer than two before a `/` fails both greedy choices, so
the match succeeds exactly when the first two runs have length 1–2 and
the final run has length ≥ 2 (of which at most 4 are captured). -/
def matchDateTok (s : PStr) : Option PStr :=
  let d1 := s.takeWhile Char.isDigit
  if 1 ≤ d1.length ∧ d1.length ≤ 2 then
    match s.drop d1.length with
    | '/' :: r2 =>
      let d2 := r2.takeWhile Char.isDigit
      if 1 ≤ d2.length ∧ d2.length ≤ 2 then
        match r2.drop d2.length with
        | '/' :: r3 =>
          let d3 := r3.takeWhile Char.isDigit
          if 2 ≤ d3.length then some (d1 ++ '/' :: (d2 ++ '/' :: d3.take 4)) else none
        | _ => none
      else none
    | _ => none
  else none

/-- Match of `(?:Date:?|Posted On:?)[\s,]*(\d{1,2}/\d{1,2}/\d{2,4})`
anchored at the start of `s`, returning the captured date token. -/
def matchDateAt (s : PStr) : Option PStr :=
  let afterLabel : Option PStr :=
    match chopStart "Date".data s with
    | some r => some (match r with | ':' :: t => t | t => t)
    | none =>
      match chopStart "Posted On".data s with
      | some r => some (match r with | ':' :: t => t | t => t)
      | none => none
  match afterLabel with
  | none => none
  | some r => matchDateTok (r.dropWhile (fun c => pyWS c || c = ','))

/-- Models `re.search`: try an anchored matcher at every start position, left
to right, returning the first success. -/
def searchFirst (f : PStr → Option PStr) : PStr → Option PStr
  | [] => f []
  | x :: t =>
    match f (x :: t) with
    | some r => some r
    | none => searchFirst f t

/-- Models `parse_invhdr(inv_text)`: first digit run following a literal
`Invoice` label, and first date token following a `Date` / `Posted On`
label; `''` for either when absent (and both when the input is falsy). -/
def parse_invhdr (inv_text : PStr) : PStr × PStr :=
  if inv_text = [] then ([], [])
  else
    ((searchFirst matchInvAt inv_text).getD [], (searchFirst matchDateAt inv_text).getD [])

/-- The `tofloat` closure in `extract`: `float(s.replace(',', '').strip())`
with any failure (or falsy input) giving `0.0`. -/
def tofloat (s : PStr) : ℚ :=
  if s = [] then 0
  else
    match pyFloat? (pyStrip (s.filter (fun c => c ≠ ','))) with
    | some q => q
    | none => 0

/-- The vehicle-escalation loop of `extract`, with a fuel argument
bounding the number of parent-chain steps; each escalation moves to a
strictly shorter path, so fuel `|g| + 1` is always sufficient. -/
def vehicleLoopAux (root : XNode) : Nat → Option (List Nat) → PStr
  | _, none => []
  | 0, some _ => []
  | fuel + 1, some g =>
    match getNode? root g with
    | none => []
    | some gn =>
      match findDescField gn ymmName with
      | some v => pyOr (get_text (some v) "FormattedValue") (get_text (some v) "Value")
      | none => vehicleLoopAux root fuel (find_ancestor_by_tag root groupSuffix g)

/-- Sufficient fuel for the escalation loop starting at `gOpt`. -/
def vehicleFuel : Option (List Nat) → Nat
  | none => 0
  | some g => g.length + 1

/-- The `while g is not None` loop of `extract` that resolves the
vehicle text: search the current group's subtree for the vehicle field,
else move to the next enclosing group; `''` when the chain runs out. -/
def vehicleLoop (root : XNode) (gOpt : Option (List Nat)) : PStr :=
  vehicleLoopAux root (vehicleFuel gOpt) gOpt

/-- One extracted invoice record (one `rows.append({...})` dictionary). -/
structure InvoiceRow where
  invoice : PStr
  date : PStr
  truck : PStr
  license : PStr
  unit : PStr
  parts : ℚ
  labor : ℚ
  discount : ℚ
  hazmat : ℚ
  supplies : ℚ
  tax : ℚ
  total : ℚ
  vehicle : PStr
deriving DecidableEq

/-- Placeholder for the unreachable case of an invalid path. -/
def dummyRow : InvoiceRow := ⟨[], [], [], [], [], 0, 0, 0, 0, 0, 0, 0, []⟩

/-- The body of the `for f in inv_fields` loop of `extract`, building
one record from the invoice-header field at path `fp`. -/
def buildRow (root : XNode) (fp : List Nat) : InvoiceRow :=
  match getNode? root fp with
  | none => dummyRow
  | some f =>
    let inv_text := pyOr (get_text (some f) "FormattedValue") (get_text (some f) "Value")
    let hdr := parse_invhdr inv_text
    let invoice_group := find_ancestor_by_tag root groupSuffix fp
    let vehicle_value := vehicleLoop root invoice_group
    let tlu := parse_vehicle_fields vehicle_value
    let gnode : Option XNode := invoice_group.bind (getNode? root)
    { invoice := hdr.1, date := hdr.2,
      truck := tlu.1, license := tlu.2.1, unit := tlu.2.2,
      parts := tofloat (find_field_value gnode partsName),
      labor := tofloat (find_field_value gnode laborName),
      discount := tofloat (find_field_value gnode discountName),
      hazmat := tofloat (find_field_value gnode hazmatName),
      supplies := tofloat (find_field_value gnode suppliesName),
      tax := tofloat (find_field_value gnode taxName),
      total := tofloat (find_field_value gnode totalName),
      vehicle := vehicle_value }

/-- The field at path `p` of `root` matches
`cr:Field[@FieldName="name"]`. -/
def matchFieldAt (root : XNode) (name : PStr) (p : List Nat) : Bool :=
  match getNode? root p with
  | some n => isFieldNamed name n
  | none => false

/-- Models `root.findall('.//cr:Field[@FieldName="...InvHdr..."]', NS)` as paths:
every invoice-header field occurrence, in document order. -/
def invHdrPaths (root : XNode) : List (List Nat) :=
  (descendPaths root).filter (matchFieldAt root invHdrName)

/-- Models `extract`: one appended record per invoice-header occurrence. -/
def extract (root : XNode) : List InvoiceRow :=
  (invHdrPaths root).foldl (fun rows fp => rows ++ [buildRow root fp]) []

/-- One aggregate row of `group_by_vehicle` (vehicle, unit, count and
the seven summed financial columns). -/
structure GroupRow where
  vehicle : PStr
  unit : PStr
  count : ℕ
  parts : ℚ
  labor : ℚ
  discount : ℚ
  hazmat : ℚ
  supplies : ℚ
  tax : ℚ
  total : ℚ
deriving DecidableEq

/-- The `defaultdict` initial value of `group_by_vehicle`. -/
def initGroup : GroupRow := ⟨[], [], 0, 0, 0, 0, 0, 0, 0, 0⟩

/-- The grouping key: trimmed vehicle text, `'Unknown'` when empty. -/
def gkey (r : InvoiceRow) : PStr :=
  let v := pyStrip r.vehicle
  if v = [] then "Unknown".data else v

/-- One `for r in rows` update of `group_by_vehicle` on the group of
`r`: overwrite vehicle/unit, bump the count, add the seven columns. -/
def addTo (g : GroupRow) (key : PStr) (r : InvoiceRow) : GroupRow :=
  { vehicle := key, unit := pyStrip r.unit, count := g.count + 1,
    parts := g.parts + r.parts, labor := g.labor + r.labor,
    discount := g.discount + r.discount, hazmat := g.hazmat + r.hazmat,
    supplies := g.supplies + r.supplies, tax := g.tax + r.tax,
    total := g.total + r.total }

/-- Apply one record to the insertion-ordered group table (models the
`defaultdict` entry update, creating the entry on first use). -/
def upsert : List (PStr × GroupRow) → InvoiceRow → List (PStr × GroupRow)
  | [], r => [(gkey r, addTo initGroup (gkey r) r)]
  | (k, g) :: rest, r =>
    if gkey r = k then (k, addTo g k r) :: rest else (k, g) :: upsert rest r

/-- Models `group_by_vehicle(rows)`: fold the records into the insertion-ordered
group table and return the rows, in first-occurrence key order. -/
def group_by_vehicle (rows : List InvoiceRow) : List GroupRow :=
  (rows.foldl upsert []).map Prod.snd

/-! ## Spec-shaped definitions used to state the claims -/

/-- The node at path `q` has a tag name ending with `tag` (the
ancestor test of `find_ancestor_by_tag`). -/
def tagMatchAt (root : XNode) (tag : PStr) (q : List Nat) : Bool :=
  match getNode? root q with
  | some n => pyEndsWith n.tag tag
  | none => false

/-- The subtree of the node at path `q` contains a vehicle-identity
(`\x7b@YmmEngLic\x7d`) field. -/
def hasVehicleField (root : XNode) (q : List Nat) : Bool :=
  match getNode? root q with
  | some n => (findDescField n ymmName).isSome
  | none => false

/-- The vehicle text read from the first vehicle-identity field in the
subtree of the node at path `q` (empty when there is none). -/
def vehicleValueAt (root : XNode) (q : List Nat) : PStr :=
  match getNode? root q with
  | some n =>
    match findDescField n ymmName with
    | some v => pyOr (get_text (some v) "FormattedValue") (get_text (some v) "Value")
    | none => []
  | none => []

/-- Modelled from the spec (EscalatingVehicleLookup): take the invoice
node's group ancestors from the nearest outward, find the first whose
subtree carries the vehicle-identity field and read the value there;
empty when no group ancestor carries it (or no group ancestor exists). -/
def specVehicleLookup (root : XNode) (p : List Nat) : PStr :=
  match ((ancestorPaths p).filter (tagMatchAt root groupSuffix)).find? (hasVehicleField root) with
  | some q => vehicleValueAt root q
  | none => []

/-- Modelled from the spec (C9): the reconstructed descriptor
`"truck, license"` when the unit is empty, else
`"truck, license, unit"`. -/
def reconVehicle (t l u : PStr) : PStr :=
  if u = [] then t ++ (", ".data ++ l) else t ++ (", ".data ++ (l ++ (", ".data ++ u)))

/-! ## Concrete documents for the scenario parts of the claims -/

def XForest.ofList : List XNode → XForest
  | [] => .nil
  | c :: cs => .cons c (XForest.ofList cs)

/-- A namespaced text-carrying child element (a `FormattedValue` or
`Value` node). -/
def textChild (localName : String) (v : String) : XNode :=
  .mk (crTag localName) [] (some v.data) .nil

/-- A `cr:Field` element with the given `FieldName` attribute and a
`FormattedValue` child holding `v`. -/
def fieldNode (name : PStr) (v : String) : XNode :=
  .mk (crTag "Field") [(fieldNameAttr, name)] none
    (.cons (textChild "FormattedValue" v) .nil)

/-- A plain grouping or container element. -/
def elemNode (tagStr : String) (cs : List XNode) : XNode :=
  .mk tagStr.data [] none (XForest.ofList cs)

/-- C1 scenario: the invoice's own group and its parent group carry no
vehicle field; the grandparent group does. -/
def c1inner : XNode := elemNode "InnerGroup" [fieldNode invHdrName "Invoice: 7 Date: 1/2/2024"]

def c1mid : XNode := elemNode "MidGroup" [c1inner]

def c1top : XNode :=
  elemNode "TopGroup" [fieldNode ymmName "Vehicle: Ford F150, ABC-123, 77", c1mid]

def c1root : XNode := elemNode "Report" [c1top]

/-- C2 scenario: the financial field lives only in a sibling group of
the invoice's group. -/
def c2invG : XNode := elemNode "AGroup" [fieldNode invHdrName "Invoice: 1"]

def c2sibG : XNode := elemNode "BGroup" [fieldNode totalName "100.00"]

def c2root : XNode := elemNode "Report" [c2invG, c2sibG]

/-- C5 scenario, first invoice group: malformed total, empty parts
value. -/
def c5gA : XNode :=
  elemNode "AGroup"
    [fieldNode invHdrName "Invoice: 7 Date: 1/2/2024", fieldNode totalName "abc",
     fieldNode partsName ""]

/-- C5 scenario, second invoice group: a well-formed total. -/
def c5gB : XNode :=
  elemNode "BGroup"
    [fieldNode invHdrName "Invoice: 8 Date: 1/3/2024", fieldNode totalName "50.00"]

def c5root : XNode := elemNode "Report" [c5gA, c5gB]

/-- C10 scenario: the starting node's own tag ends in `Group`, and the
enclosing ancestor's tag ends in `Group` without being equal to it. -/
def c10leaf : XNode := elemNode "LeafGroup" []

def c10g : XNode := elemNode "FancyGroup" [c10leaf]

def c10root : XNode := elemNode "Report" [c10g]

/-- C8 scenario: a three-deep chain with the matching tag only at the
top. -/
def c8leaf : XNode := elemNode "Item" []

def c8mid : XNode := elemNode "Band" [c8leaf]

def c8top : XNode := elemNode "OuterGroup" [c8mid]

def c8root : XNode := elemNode "Report" [c8top]

/-- Occurrence of a character sequence inside a string (Python `in`),
used to state label absence. -/
def containsSeq (pat : PStr) : PStr → Bool
  | [] => pat.isEmpty
  | x :: t => List.isPrefixOf pat (x :: t) || containsSeq pat t

/-- The reversed-path form of `specVehicleLookup`, on which the
induction proceeds. -/
def specLookupR (root : XNode) (r : List Nat) : PStr :=
  match ((ancestorPathsAux r).filter (tagMatchAt root groupSuffix)).find? (hasVehicleField root) with
  | some q => vehicleValueAt root q
  | none => []

/-! ## Supporting lemmas -/

theorem chopStart_eq_some {pat s r : PStr} : chopStart pat s = some r ↔ s = pat ++ r := by
  induction pat generalizing s with
  | nil => simp [chopStart, eq_comm]
  | cons p ps ih =>
    cases s with
    | nil => simp [chopStart]
    | cons c cs =>
      by_cases h : c = p
      · subst h
        simp [chopStart, ih]
      · simp [chopStart, h, Ne.symm h]

theorem searchFirst_eq_none {f : PStr → Option PStr} {s : PStr}
    (h : ∀ t, t <:+ s → f t = none) : searchFirst f s = none := by
  induction s with
  | nil => simpa [searchFirst] using h [] (List.suffix_refl [])
  | cons x t ih =>
    have hx := h (x :: t) (List.suffix_refl _)
    have ht : searchFirst f t = none := ih fun u hu => h u (hu.trans (List.suffix_cons x t))
    simp [searchFirst, hx, ht]

theorem searchFirst_some {f : PStr → Option PStr} {s r : PStr}
    (h : searchFirst f s = some r) : ∃ t, t <:+ s ∧ f t = some r := by
  induction s with
  | nil =>
    simp only [searchFirst] at h
    exact ⟨[], List.suffix_refl [], h⟩
  | cons x t ih =>
    simp only [searchFirst] at h
    cases hx : f (x :: t) with
    | some v =>
      rw [hx] at h
      simp only at h
      exact ⟨x :: t, List.suffix_refl _, by rw [hx, h]⟩
    | none =>
      rw [hx] at h
      simp only at h
      obtain ⟨u, hu, hfu⟩ := ih h
      exact ⟨u, hu.trans (List.suffix_cons x t), hfu⟩

theorem containsSeq_eq_false {pat s : PStr} (h : containsSeq pat s = false) :
    ∀ t, t <:+ s → List.isPrefixOf pat t = false := by
  induction s with
  | nil =>
    intro t ht
    rw [List.suffix_nil.mp ht]
    simp only [containsSeq, List.isEmpty_iff] at h
    cases pat with
    | nil => simp at h
    | cons p ps => rfl
  | cons x s ih =>
    intro t ht
    simp only [containsSeq, Bool.or_eq_false_iff] at h
    rcases (List.suffix_cons_iff.mp ht) with rfl | ht'
    · exact h.1
    · exact ih h.2 t ht'

theorem getNode?_append (n : XNode) (p q : List Nat) :
    getNode? n (p ++ q) = (getNode? n p).bind (fun m => getNode? m q) := by
  induction p generalizing n with
  | nil => simp [getNode?]
  | cons i p ih =>
    simp only [List.cons_append, getNode?]
    cases n.children.get? i with
    | none => simp
    | some c => simpa using ih c

theorem isValidPath_of_prefix {root : XNode} {p q : List Nat} (hpq : q <+: p)
    (h : isValidPath root p = true) : isValidPath root q = true := by
  obtain ⟨t, rfl⟩ := hpq
  rw [isValidPath, getNode?_append] at h
  rw [isValidPath]
  cases hq : getNode? root q with
  | none => rw [hq] at h; simp at h
  | some m => simp

theorem of_mem_ancestorPathsAux {r q : List Nat} (h : q ∈ ancestorPathsAux r) :
    ∃ rq, rq <:+ r ∧ rq.length < r.length ∧ q = rq.reverse := by
  induction r with
  | nil => simp [ancestorPathsAux] at h
  | cons x rr ih =>
    simp only [ancestorPathsAux, List.mem_cons] at h
    rcases h with rfl | h
    · exact ⟨rr, List.suffix_cons x rr, by simp, rfl⟩
    · obtain ⟨rq, hs, hl, rfl⟩ := ih h
      exact ⟨rq, hs.trans (List.suffix_cons x rr), by simp; omega, rfl⟩

theorem mem_ancestorPaths_isPre {p q : List Nat} (h : q ∈ ancestorPaths p) :
    q <+: p ∧ q.length < p.length := by
  rw [ancestorPaths] at h
  obtain ⟨rq, hs, hl, rfl⟩ := of_mem_ancestorPathsAux h
  have hp : rq.reverse <+: p := by
    have := List.reverse_prefix.mpr hs
    rwa [List.reverse_reverse] at this
  exact ⟨hp, by simpa using hl⟩

theorem ancestorPaths_valid {root : XNode} {p q : List Nat}
    (hv : isValidPath root p = true) (h : q ∈ ancestorPaths p) :
    isValidPath root q = true :=
  isValidPath_of_prefix (mem_ancestorPaths_isPre h).1 hv

theorem faqAux_some_lt {root : XNode} {tag : PStr} :
    ∀ {r q : List Nat}, faqAux root tag r = some q → q.length < r.length := by
  intro r
  induction r with
  | nil => intro q h; simp [faqAux] at h
  | cons x rr ih =>
    intro q h
    simp only [faqAux] at h
    cases hn : getNode? root rr.reverse with
    | none =>
      rw [hn] at h
      simp at h
    | some n =>
      rw [hn] at h
      simp only at h
      by_cases hm : pyEndsWith n.tag tag = true
      · rw [if_pos hm] at h
        cases h
        simp
      · rw [if_neg hm] at h
        have := ih h
        simp only [List.length_cons]
        omega

theorem faqAux_eq_find? (root : XNode) (tag : PStr) :
    ∀ r : List Nat, (∀ q ∈ ancestorPathsAux r, isValidPath root q = true) →
      faqAux root tag r = (ancestorPathsAux r).find? (tagMatchAt root tag) := by
  intro r
  induction r with
  | nil => intro _; simp [faqAux, ancestorPathsAux]
  | cons x rr ih =>
    intro hv
    have hq : isValidPath root rr.reverse = true :=
      hv rr.reverse (by simp [ancestorPathsAux])
    rw [isValidPath, Option.isSome_iff_exists] at hq
    obtain ⟨n, hn⟩ := hq
    have hrest : ∀ q ∈ ancestorPathsAux rr, isValidPath root q = true := by
      intro q hmem
      exact hv q (by simp [ancestorPathsAux, hmem])
    simp only [faqAux, ancestorPathsAux, List.find?_cons, tagMatchAt, hn]
    by_cases hm : pyEndsWith n.tag tag = true
    · simp [hm]
    · simp only [Bool.not_eq_true] at hm
      simp [hm, ih hrest]

theorem find_ancestor_eq_find? {root : XNode} {tag : PStr} {p : List Nat}
    (hv : isValidPath root p = true) :
    find_ancestor_by_tag root tag p = (ancestorPaths p).find? (tagMatchAt root tag) := by
  rw [find_ancestor_by_tag, ancestorPaths]
  exact faqAux_eq_find? root tag p.reverse fun q hq =>
    ancestorPaths_valid hv (by rwa [ancestorPaths])

theorem find_ancestor_some_lt {root : XNode} {tag : PStr} {p q : List Nat}
    (h : find_ancestor_by_tag root tag p = some q) : q.length < p.length := by
  have := @faqAux_some_lt root tag p.reverse q
  rw [find_ancestor_by_tag] at h
  simpa using this h

theorem vehicleLoopAux_congr (root : XNode) :
    ∀ (f1 f2 : Nat) (gOpt : Option (List Nat)),
      vehicleFuel gOpt ≤ f1 → vehicleFuel gOpt ≤ f2 →
      vehicleLoopAux root f1 gOpt = vehicleLoopAux root f2 gOpt := by
  intro f1
  induction f1 with
  | zero =>
    intro f2 gOpt h1 _
    cases gOpt with
    | none => cases f2 <;> rfl
    | some g => simp [vehicleFuel] at h1
  | succ f1' ih =>
    intro f2 gOpt h1 h2
    cases gOpt with
    | none => cases f2 <;> rfl
    | some g =>
      simp only [vehicleFuel] at h1 h2
      cases f2 with
      | zero => omega
      | succ f2' =>
        simp only [vehicleLoopAux]
        cases hn : getNode? root g with
        | none => rfl
        | some n =>
          simp only
          cases hf : findDescField n ymmName with
          | some v => rfl
          | none =>
            simp only
            apply ih
            · cases hfa : find_ancestor_by_tag root groupSuffix g with
              | none => simp [vehicleFuel]
              | some q =>
                have := find_ancestor_some_lt hfa
                simp only [vehicleFuel]
                omega
            · cases hfa : find_ancestor_by_tag root groupSuffix g with
              | none => simp [vehicleFuel]
              | some q =>
                have := find_ancestor_some_lt hfa
                simp only [vehicleFuel]
                omega

theorem specVehicleLookup_eq_specLookupR (root : XNode) (p : List Nat) :
    specVehicleLookup root p = specLookupR root p.reverse := rfl

theorem vehicleFuel_faq_le {root : XNode} {g : List Nat} :
    vehicleFuel (find_ancestor_by_tag root groupSuffix g) ≤ g.length := by
  cases hfa : find_ancestor_by_tag root groupSuffix g with
  | none => simp [vehicleFuel]
  | some q =>
    have := find_ancestor_some_lt hfa
    simp only [vehicleFuel]
    omega

theorem vehicleLoop_eq_specLookupR (root : XNode) :
    ∀ r : List Nat, (∀ q ∈ ancestorPathsAux r, isValidPath root q = true) →
      vehicleLoop root (faqAux root groupSuffix r) = specLookupR root r := by
  intro r
  induction r with
  | nil => intro _; rfl
  | cons x rr ih =>
    intro hv
    have hq : isValidPath root rr.reverse = true := hv _ (by simp [ancestorPathsAux])
    rw [isValidPath, Option.isSome_iff_exists] at hq
    obtain ⟨n, hn⟩ := hq
    have hrest : ∀ q ∈ ancestorPathsAux rr, isValidPath root q = true :=
      fun q hmem => hv q (by simp [ancestorPathsAux, hmem])
    by_cases hm : pyEndsWith n.tag groupSuffix = true
    · have hfa : faqAux root groupSuffix (x :: rr) = some rr.reverse := by
        simp [faqAux, hn, hm]
      rw [hfa]
      have hfil : (ancestorPathsAux (x :: rr)).filter (tagMatchAt root groupSuffix) =
          rr.reverse :: (ancestorPathsAux rr).filter (tagMatchAt root groupSuffix) := by
        simp [ancestorPathsAux, List.filter_cons, tagMatchAt, hn, hm]
      cases hy : hasVehicleField root rr.reverse with
      | true =>
        have hy' : (findDescField n ymmName).isSome = true := by
          simpa [hasVehicleField, hn] using hy
        obtain ⟨v, hfv⟩ := Option.isSome_iff_exists.mp hy'
        rw [specLookupR, hfil, List.find?_cons, hy]
        simp [vehicleLoop, vehicleFuel, vehicleLoopAux, hn, hfv, vehicleValueAt]
      | false =>
        have hy' : findDescField n ymmName = none := by
          have h2 : (findDescField n ymmName).isSome = false := by
            simpa [hasVehicleField, hn] using hy
          exact Option.not_isSome_iff_eq_none.mp (by simp [h2])
        rw [specLookupR, hfil, List.find?_cons, hy]
        have hstep : vehicleLoop root (some rr.reverse) =
            vehicleLoop root (faqAux root groupSuffix rr) := by
          rw [vehicleLoop, vehicleFuel]
          simp only [vehicleLoopAux, hn, hy']
          rw [vehicleLoopAux_congr root rr.reverse.length
            (vehicleFuel (find_ancestor_by_tag root groupSuffix rr.reverse))
            (find_ancestor_by_tag root groupSuffix rr.reverse)
            (by simpa using @vehicleFuel_faq_le root rr.reverse) (le_refl _)]
          rw [find_ancestor_by_tag, List.reverse_reverse, vehicleLoop]
        rw [hstep, ih hrest, specLookupR]
    · have hfa : faqAux root groupSuffix (x :: rr) = faqAux root groupSuffix rr := by
        simp only [faqAux, hn]
        rw [if_neg hm]
      have hfil : (ancestorPathsAux (x :: rr)).filter (tagMatchAt root groupSuffix) =
          (ancestorPathsAux rr).filter (tagMatchAt root groupSuffix) := by
        simp only [Bool.not_eq_true] at hm
        simp [ancestorPathsAux, List.filter_cons, tagMatchAt, hn, hm]
      rw [hfa, specLookupR, hfil, ih hrest, specLookupR]

theorem faqAux_char (root : XNode) (tag : PStr) :
    ∀ r : List Nat, (∀ q ∈ ancestorPathsAux r, isValidPath root q = true) →
      (faqAux root tag r = none → ∀ q ∈ ancestorPathsAux r, tagMatchAt root tag q = false) ∧
      (∀ q, faqAux root tag r = some q →
        q ∈ ancestorPathsAux r ∧ tagMatchAt root tag q = true ∧
        ∀ q' ∈ ancestorPathsAux r, q.length < q'.length → tagMatchAt root tag q' = false) := by
  intro r
  induction r with
  | nil =>
    intro _
    refine ⟨fun _ q hq => absurd hq (by simp [ancestorPathsAux]), fun q hq => ?_⟩
    simp [faqAux] at hq
  | cons x rr ih =>
    intro hv
    have hq : isValidPath root rr.reverse = true := hv _ (by simp [ancestorPathsAux])
    rw [isValidPath, Option.isSome_iff_exists] at hq
    obtain ⟨n, hn⟩ := hq
    have hrest : ∀ q ∈ ancestorPathsAux rr, isValidPath root q = true :=
      fun q hmem => hv q (by simp [ancestorPathsAux, hmem])
    have ihr := ih hrest
    have htm : tagMatchAt root tag rr.reverse = pyEndsWith n.tag tag := by
      simp [tagMatchAt, hn]
    by_cases hm : pyEndsWith n.tag tag = true
    · have hfa : faqAux root tag (x :: rr) = some rr.reverse := by
        simp [faqAux, hn, hm]
      refine ⟨fun hc => absurd hc (by simp [hfa]), fun q hq => ?_⟩
      rw [hfa] at hq
      cases hq
      refine ⟨by simp [ancestorPathsAux], by rw [htm, hm], ?_⟩
      intro q' hq' hlt
      simp only [ancestorPathsAux, List.mem_cons] at hq'
      rcases hq' with rfl | hq'
      · omega
      · obtain ⟨rq, _, hl, rfl⟩ := of_mem_ancestorPathsAux hq'
        simp only [List.length_reverse] at hlt
        omega
    · have hfa : faqAux root tag (x :: rr) = faqAux root tag rr := by
        simp only [faqAux, hn]
        rw [if_neg hm]
      rw [hfa]
      simp only [Bool.not_eq_true] at hm
      constructor
      · intro hc q hq
        simp only [ancestorPathsAux, List.mem_cons] at hq
        rcases hq with rfl | hq
        · rw [htm, hm]
        · exact ihr.1 hc q hq
      · intro q hq
        obtain ⟨hmem, htrue, hnear⟩ := ihr.2 q hq
        refine ⟨by simp [ancestorPathsAux, hmem], htrue, ?_⟩
        intro q' hq' hlt
        simp only [ancestorPathsAux, List.mem_cons] at hq'
        rcases hq' with rfl | hq'
        · rw [htm, hm]
        · exact hnear q' hq' hlt

/-! ## Claim theorems -/

/-- C1: for every invoice header node, vehicle identity is resolved by
searching the subtree of the nearest enclosing group, escalating to the
next higher group ancestor when absent, and is empty when no higher
group exists; in particular an invoice whose own group and parent group
lack the vehicle field resolves it from the grandparent group. -/
theorem c1_escalating_vehicle_lookup :
    (∀ (root : XNode) (p : List Nat), isValidPath root p = true →
      (buildRow root p).vehicle = specVehicleLookup root p) ∧
    (buildRow c1root [0, 1, 0, 0]).vehicle = "Vehicle: Ford F150, ABC-123, 77".data ∧
    (findDescField c1inner ymmName).isNone = true ∧
    (findDescField c1mid ymmName).isNone = true ∧
    find_ancestor_by_tag c1root groupSuffix [0, 1, 0, 0] = some [0, 1, 0] := by
  refine ⟨?_, by decide, by decide, by decide, by decide⟩
  intro root p hv
  have hval : ∀ q ∈ ancestorPathsAux p.reverse, isValidPath root q = true := by
    intro q hq
    exact ancestorPaths_valid hv (by rwa [ancestorPaths])
  have hmain := vehicleLoop_eq_specLookupR root p.reverse hval
  rw [isValidPath, Option.isSome_iff_exists] at hv
  obtain ⟨f, hf⟩ := hv
  simp only [buildRow, hf]
  rw [specVehicleLookup_eq_specLookupR]
  exact hmain

/-- C1 witness: the general escalation equation applied to the concrete
grandparent-resolution document. -/
theorem c1_escalating_vehicle_lookup_witness :
    (buildRow c1root [0, 1, 0, 0]).vehicle = specVehicleLookup c1root [0, 1, 0, 0] :=
  c1_escalating_vehicle_lookup.1 c1root [0, 1, 0, 0] (by decide)

/-- C8: under the tree precondition (inherent to the inductive document
model), the ancestor walk is a total function of the indexed paths and
returns the nearest ancestor satisfying the tag predicate, or none when
the parent chain (in which the root has no parent entry) is exhausted
without a match. -/
theorem c8_nearest_ancestor_correct :
    ∀ (root : XNode) (tag : PStr) (p : List Nat), isValidPath root p = true →
      (find_ancestor_by_tag root tag p = none ↔
        ∀ q ∈ ancestorPaths p, tagMatchAt root tag q = false) ∧
      (∀ q, find_ancestor_by_tag root tag p = some q →
        q ∈ ancestorPaths p ∧ tagMatchAt root tag q = true ∧
        ∀ q' ∈ ancestorPaths p, q.length < q'.length → tagMatchAt root tag q' = false) := by
  intro root tag p hv
  have hval : ∀ q ∈ ancestorPathsAux p.reverse, isValidPath root q = true := by
    intro q hq
    exact ancestorPaths_valid hv (by rwa [ancestorPaths])
  have hc := faqAux_char root tag p.reverse hval
  constructor
  · constructor
    · intro h
      exact hc.1 h
    · intro hall
      cases hfa : find_ancestor_by_tag root tag p with
      | none => rfl
      | some q =>
        have hq := hc.2 q hfa
        have := hall q hq.1
        rw [hq.2.1] at this
        cases this
  · exact hc.2

/-- C8 witness: in the concrete three-deep chain the walk finds the
outer group and rejects the intermediate band. -/
theorem c8_nearest_ancestor_correct_witness :
    tagMatchAt c8root groupSuffix [0] = true ∧
    tagMatchAt c8root groupSuffix [0, 0] = false := by
  have h := (c8_nearest_ancestor_correct c8root groupSuffix [0, 0, 0] (by decide)).2
    [0] (by decide)
  exact ⟨h.2.1, h.2.2 [0, 0] (by decide) (by decide)⟩

/-- C10: the ancestor search matches by tag-name suffix, not exact
equality — any tag merely ending in the sought string qualifies — and
never returns the starting node itself, only a strict ancestor. -/
theorem c10_suffix_matched_strict_ancestor :
    (∀ (root : XNode) (tag : PStr) (p q : List Nat), isValidPath root p = true →
      find_ancestor_by_tag root tag p = some q →
      q ≠ p ∧ q <+: p ∧ q.length < p.length ∧
      ∃ n, getNode? root q = some n ∧ pyEndsWith n.tag tag = true) ∧
    find_ancestor_by_tag c10root groupSuffix [0, 0] = some [0] ∧
    (getNode? c10root [0]).map XNode.tag = some "FancyGroup".data ∧
    "FancyGroup".data ≠ groupSuffix ∧
    (getNode? c10root [0, 0]).map XNode.tag = some "LeafGroup".data := by
  refine ⟨?_, by decide, by decide, by decide, by decide⟩
  intro root tag p q hv hfa
  have hval : ∀ q' ∈ ancestorPathsAux p.reverse, isValidPath root q' = true := by
    intro q' hq'
    exact ancestorPaths_valid hv (by rwa [ancestorPaths])
  obtain ⟨hmem, htm, _⟩ := (faqAux_char root tag p.reverse hval).2 q hfa
  have hpre : q <+: p ∧ q.length < p.length := mem_ancestorPaths_isPre hmem
  refine ⟨?_, hpre.1, hpre.2, ?_⟩
  · intro h
    rw [h] at hpre
    omega
  · rw [tagMatchAt] at htm
    cases hn : getNode? root q with
    | none => rw [hn] at htm; cases htm
    | some n =>
      rw [hn] at htm
      simp only at htm
      exact ⟨n, rfl, htm⟩

/-- C10 witness: the concrete search returns a strict ancestor of the
starting node. -/
theorem c10_suffix_matched_strict_ancestor_witness :
    (([0] : List Nat)) ≠ [0, 0] ∧ ([0] : List Nat).length < ([0, 0] : List Nat).length := by
  have h := c10_suffix_matched_strict_ancestor.1 c10root groupSuffix [0, 0] [0]
    (by decide) (by decide)
  exact ⟨h.1, h.2.2.1⟩

/-- C2: FindField searches only the descendants of the context node for
an exactly matching field identifier, preferring the formatted value
over the raw value and defaulting to empty (also when the context is
absent); a financial field present only in a sibling group is not
found. -/
theorem c2_find_field_descendant_scope :
    (∀ name : PStr, find_field_value none name = []) ∧
    (∀ (g : XNode) (name : PStr),
      (findDescField g name = none → find_field_value (some g) name = []) ∧
      (∀ f, findDescField g name = some f →
        f ∈ descend g ∧ isFieldNamed name f = true ∧
        find_field_value (some g) name =
          pyOr (get_text (some f) "FormattedValue") (get_text (some f) "Value"))) ∧
    find_field_value (some c2invG) totalName = [] ∧
    find_field_value (some c2sibG) totalName = "100.00".data := by
  refine ⟨fun name => rfl, ?_, by decide, by decide⟩
  intro g name
  constructor
  · intro h
    simp [find_field_value, h]
  · intro f hf
    have hf' : (descend g).find? (isFieldNamed name) = some f := hf
    exact ⟨List.mem_of_find?_eq_some hf', List.find?_some hf',
      by simp [find_field_value, hf]⟩

/-- C2 witness: the general found-case equation applied to the sibling
group that does carry the field. -/
theorem c2_find_field_descendant_scope_witness :
    find_field_value (some c2sibG) totalName =
      pyOr (get_text (some (fieldNode totalName "100.00")) "FormattedValue")
        (get_text (some (fieldNode totalName "100.00")) "Value") :=
  ((c2_find_field_descendant_scope.2.1 c2sibG totalName).2
    (fieldNode totalName "100.00") rfl).2.2

theorem foldl_append_map {α β : Type} (f : α → β) :
    ∀ (l : List α) (acc : List β),
      l.foldl (fun r a => r ++ [f a]) acc = acc ++ l.map f := by
  intro l
  induction l with
  | nil => intro acc; simp
  | cons a l ih =>
    intro acc
    rw [List.foldl_cons, ih]
    simp

/-- C5: extraction produces exactly one record per invoice-header field
occurrence, each built independently by a total per-occurrence builder,
and a malformed or missing sub-field only degrades that sub-field to
its empty or zero default without affecting the other records
(illustrated on a document whose first invoice has a malformed total
and an empty parts value). -/
theorem c5_one_record_per_header :
    (∀ root : XNode, extract root = (invHdrPaths root).map (buildRow root)) ∧
    (∀ root : XNode, (extract root).length = (invHdrPaths root).length) ∧
    extract c5root =
      [{ invoice := "7".data, date := "1/2/2024".data, truck := [], license := [], unit := [],
         parts := 0, labor := 0, discount := 0, hazmat := 0, supplies := 0, tax := 0,
         total := 0, vehicle := [] },
       { invoice := "8".data, date := "1/3/2024".data, truck := [], license := [], unit := [],
         parts := 0, labor := 0, discount := 0, hazmat := 0, supplies := 0, tax := 0,
         total := 50, vehicle := [] }] := by
  have hmap : ∀ root : XNode, extract root = (invHdrPaths root).map (buildRow root) := by
    intro root
    rw [extract]
    simpa using foldl_append_map (buildRow root) (invHdrPaths root) []
  refine ⟨hmap, fun root => by rw [hmap root, List.length_map], by decide⟩

/-- C4 counterexample: the `Invoice` label is matched case-sensitively
by the code, so a lower-case label yields an empty invoice number where
the claim's case-insensitive reading requires `4521` (the date is still
found). -/
theorem c4_counterexample_case_sensitivity :
    parse_invhdr "invoice: 4521 Date: 12/21/2025".data = ([], "12/21/2025".data) ∧
    (parse_invhdr "invoice: 4521 Date: 12/21/2025".data).1 ≠ "4521".data := by
  exact ⟨by decide, by decide⟩

/-- C4 (amended): the invoice number is the first run of digits after a
literal `Invoice` label matched case-sensitively with optional colon
and whitespace, empty (never failing) when the label or digits are
absent; the date is the first `\d{1,2}/\d{1,2}/\d{2,4}` token after a
`Date` or `Posted On` label and is found independently of the invoice
number. -/
theorem c4_parse_invoice_header :
    parse_invhdr "Invoice: 4521 Date: 12/21/2025".data = ("4521".data, "12/21/2025".data) ∧
    (∀ s : PStr, containsSeq "Invoice".data s = false → (parse_invhdr s).1 = []) ∧
    parse_invhdr "Posted On: 1/2/23".data = ([], "1/2/23".data) ∧
    parse_invhdr "Invoice and no digits".data = ([], []) := by
  refine ⟨by decide, ?_, by decide, by decide⟩
  intro s hs
  by_cases h0 : s = []
  · subst h0; rfl
  · rw [parse_invhdr, if_neg h0]
    have hnone : searchFirst matchInvAt s = none := by
      apply searchFirst_eq_none
      intro t ht
      cases hc : chopStart "Invoice".data t with
      | none => simp [matchInvAt, hc]
      | some r =>
        exfalso
        have hteq : t = "Invoice".data ++ r := chopStart_eq_some.mp hc
        have hpref : List.isPrefixOf "Invoice".data t = true :=
          List.isPrefixOf_iff_prefix.mpr ⟨r, hteq.symm⟩
        rw [containsSeq_eq_false hs t ht] at hpref
        cases hpref
    rw [hnone]
    rfl

/-- C4 witness: the general label-absence clause applied to a concrete
header without the literal label. -/
theorem c4_parse_invoice_header_witness :
    (parse_invhdr "Total due soon 99".data).1 = [] :=
  c4_parse_invoice_header.2.1 "Total due soon 99".data (by decide)

/-- C7 counterexample: currency symbols and parenthetical negatives are
not stripped by the code — a dollar sign or parenthesised amount parses
to `0.0` where the claim's stripping reading requires the numeric
value. -/
theorem c7_counterexample_no_symbol_stripping :
    tofloat "$5".data = 0 ∧ tofloat "5".data = 5 ∧
    tofloat "(100)".data = 0 ∧ tofloat "-100".data = -100 := by
  exact ⟨by decide, by decide, by decide, by decide⟩

/-- C7 (amended): ParseCurrencyText never fails: it strips surrounding
whitespace and comma thousands separators only, returns the parsed
value of a valid float literal, and returns exactly `0.0` on any other
input, including the empty string (currency symbols and parenthetical
negatives are not stripped and therefore also yield `0.0`). -/
theorem c7_tofloat_total_default :
    tofloat [] = 0 ∧
    (∀ s : PStr, pyFloat? (pyStrip (s.filter (fun c => c ≠ ','))) = none → tofloat s = 0) ∧
    (∀ s q, pyFloat? (pyStrip (s.filter (fun c => c ≠ ','))) = some q → tofloat s = q) ∧
    tofloat "$5".data = 0 ∧
    tofloat "(100)".data = 0 ∧
    tofloat "1,234.50".data = 2469 / 2 ∧
    tofloat " -12.5e1 ".data = -125 := by
  refine ⟨rfl, ?_, ?_, by decide, by decide, by decide, by decide⟩
  · intro s h
    by_cases hs : s = []
    · subst hs; rfl
    · simp only [ne_eq, decide_not] at h
      simp [tofloat, hs, h]
  · intro s q h
    by_cases hs : s = []
    · subst hs
      have h0 : pyFloat? (pyStrip (List.filter (fun c => decide (c ≠ ',')) ([] : PStr))) = none := rfl
      rw [h0] at h
      cases h
    · simp only [ne_eq, decide_not] at h
      simp [tofloat, hs, h]

/-- C7 witness: the general invalid-input clause applied to a concrete
non-numeric string. -/
theorem c7_tofloat_total_default_witness :
    tofloat "abc".data = 0 :=
  c7_tofloat_total_default.2.1 "abc".data (by decide)

theorem upsert_snd_sum {M : Type} [AddCommMonoid M] (f : GroupRow → M) (h : InvoiceRow → M)
    (hadd : ∀ g k r, f (addTo g k r) = f g + h r) (hzero : f initGroup = 0) :
    ∀ (acc : List (PStr × GroupRow)) (r : InvoiceRow),
      ((upsert acc r).map (fun e => f e.2)).sum = ((acc.map (fun e => f e.2)).sum) + h r := by
  intro acc
  induction acc with
  | nil =>
    intro r
    simp [upsert, hadd, hzero]
  | cons e rest ih =>
    intro r
    obtain ⟨k, g⟩ := e
    by_cases hk : gkey r = k
    · simp only [upsert, if_pos hk, List.map_cons, List.sum_cons, hadd]
      abel
    · simp only [upsert, if_neg hk, List.map_cons, List.sum_cons, ih]
      abel

theorem foldl_upsert_sum {M : Type} [AddCommMonoid M] (f : GroupRow → M) (h : InvoiceRow → M)
    (hadd : ∀ g k r, f (addTo g k r) = f g + h r) (hzero : f initGroup = 0) :
    ∀ (rows : List InvoiceRow) (acc : List (PStr × GroupRow)),
      ((rows.foldl upsert acc).map (fun e => f e.2)).sum =
        ((acc.map (fun e => f e.2)).sum) + (rows.map h).sum := by
  intro rows
  induction rows with
  | nil => intro acc; simp
  | cons r rows ih =>
    intro acc
    rw [List.foldl_cons, ih, upsert_snd_sum f h hadd hzero]
    rw [List.map_cons, List.sum_cons]
    abel

theorem group_by_vehicle_sum {M : Type} [AddCommMonoid M] (f : GroupRow → M)
    (h : InvoiceRow → M) (hadd : ∀ g k r, f (addTo g k r) = f g + h r)
    (hzero : f initGroup = 0) (rows : List InvoiceRow) :
    ((group_by_vehicle rows).map f).sum = (rows.map h).sum := by
  rw [group_by_vehicle, List.map_map]
  have hs := foldl_upsert_sum f h hadd hzero rows []
  simpa [Function.comp] using hs

theorem sum_map_ones (rows : List InvoiceRow) :
    (rows.map (fun _ => (1 : Nat))).sum = rows.length := by
  induction rows with
  | nil => rfl
  | cons r rows ih => simp [ih, Nat.add_comm]

/-- C6: aggregation is conservative: the counts over all aggregate rows
sum to the number of input records, and each of the seven financial
columns sums over the aggregate rows to exactly the sum of that column
over the input records (no record double-counted or dropped; numeric
values are modelled as exact rationals). -/
theorem c6_aggregation_conservation :
    ∀ rows : List InvoiceRow,
      ((group_by_vehicle rows).map (fun g => g.count)).sum = rows.length ∧
      ((group_by_vehicle rows).map (fun g => g.parts)).sum = (rows.map (fun r => r.parts)).sum ∧
      ((group_by_vehicle rows).map (fun g => g.labor)).sum = (rows.map (fun r => r.labor)).sum ∧
      ((group_by_vehicle rows).map (fun g => g.discount)).sum =
        (rows.map (fun r => r.discount)).sum ∧
      ((group_by_vehicle rows).map (fun g => g.hazmat)).sum =
        (rows.map (fun r => r.hazmat)).sum ∧
      ((group_by_vehicle rows).map (fun g => g.supplies)).sum =
        (rows.map (fun r => r.supplies)).sum ∧
      ((group_by_vehicle rows).map (fun g => g.tax)).sum = (rows.map (fun r => r.tax)).sum ∧
      ((group_by_vehicle rows).map (fun g => g.total)).sum = (rows.map (fun r => r.total)).sum := by
  intro rows
  refine ⟨?_, ?_, ?_, ?_, ?_, ?_, ?_, ?_⟩
  · rw [group_by_vehicle_sum (fun g => g.count) (fun _ => 1) (fun _ _ _ => rfl) rfl rows]
    exact sum_map_ones rows
  · exact group_by_vehicle_sum (fun g => g.parts) (fun r => r.parts) (fun _ _ _ => rfl) rfl rows
  · exact group_by_vehicle_sum (fun g => g.labor) (fun r => r.labor) (fun _ _ _ => rfl) rfl rows
  · exact group_by_vehicle_sum (fun g => g.discount) (fun r => r.discount)
      (fun _ _ _ => rfl) rfl rows
  · exact group_by_vehicle_sum (fun g => g.hazmat) (fun r => r.hazmat) (fun _ _ _ => rfl) rfl rows
  · exact group_by_vehicle_sum (fun g => g.supplies) (fun r => r.supplies)
      (fun _ _ _ => rfl) rfl rows
  · exact group_by_vehicle_sum (fun g => g.tax) (fun r => r.tax) (fun _ _ _ => rfl) rfl rows
  · exact group_by_vehicle_sum (fun g => g.total) (fun r => r.total) (fun _ _ _ => rfl) rfl rows

/-- C3: ParseVehicleDescriptor strips the leading label, splits on
commas into trimmed parts, and assigns truck, license and unit by the
positional digit-suffix rule; the two documented scenarios hold. -/
theorem c3_parse_vehicle_descriptor :
    (∀ s : PStr,
      (3 ≤ (vehParts s).length →
        parse_vehicle_fields s =
          ((vehParts s).headD [],
            if pyIsDigitStr (((vehParts s).getLastD []).filter (fun c => c ≠ ' '))
            then ((vehParts s).getD ((vehParts s).length - 2) [], (vehParts s).getLastD [])
            else ((vehParts s).getLastD [], []))) ∧
      ((vehParts s).length = 2 →
        parse_vehicle_fields s = ((vehParts s).headD [], (vehParts s).getLastD [], [])) ∧
      ((vehParts s).length ≤ 1 →
        parse_vehicle_fields s = ((vehParts s).headD [], [], []))) ∧
    parse_vehicle_fields "Vehicle: Ford F150, ABC-123, 77".data =
      ("Ford F150".data, "ABC-123".data, "77".data) ∧
    parse_vehicle_fields "Vehicle: Ford F150, ABC-123".data =
      ("Ford F150".data, "ABC-123".data, []) := by
  refine ⟨?_, by decide, by decide⟩
  intro s
  refine ⟨?_, ?_, ?_⟩
  · intro h3
    rw [parse_vehicle_fields]
    rw [if_pos h3]
    by_cases hd : pyIsDigitStr (((vehParts s).getLastD []).filter (fun c => c ≠ ' ')) = true
    · rw [if_pos hd, if_pos hd]
    · rw [if_neg hd, if_neg hd]
  · intro h2
    rw [parse_vehicle_fields]
    rw [if_neg (by omega), if_pos h2]
  · intro h1
    rw [parse_vehicle_fields]
    rw [if_neg (by omega), if_neg (by omega)]

/-- C3 witness: the single-part clause applied to a one-part
descriptor. -/
theorem c3_parse_vehicle_descriptor_witness :
    parse_vehicle_fields "solo".data = ((vehParts "solo".data).headD [], [], []) :=
  (c3_parse_vehicle_descriptor.1 "solo".data).2.2 (by decide)

theorem pySplit_ne_nil (sep : Char) (s : PStr) : pySplit sep s ≠ [] := by
  cases s with
  | nil => simp [pySplit]
  | cons x xs =>
    simp only [pySplit]
    cases pySplit sep xs with
    | nil => simp
    | cons p ps =>
      by_cases hx : x = sep
      · simp [hx]
      · simp [hx]

theorem pySplit_no_sep {sep : Char} : ∀ {a : PStr}, (∀ c ∈ a, c ≠ sep) →
    pySplit sep a = [a] := by
  intro a
  induction a with
  | nil => intro _; rfl
  | cons x xs ih =>
    intro h
    have hx : x ≠ sep := h x (by simp)
    simp only [pySplit, ih (fun c hc => h c (List.mem_cons_of_mem x hc))]
    simp [hx]

theorem pySplit_append {sep : Char} : ∀ {a : PStr} (b : PStr), (∀ c ∈ a, c ≠ sep) →
    pySplit sep (a ++ sep :: b) = a :: pySplit sep b := by
  intro a
  induction a with
  | nil =>
    intro b _
    cases hb : pySplit sep b with
    | nil => exact absurd hb (pySplit_ne_nil sep b)
    | cons p ps => simp [pySplit, hb]
  | cons x xs ih =>
    intro b h
    have hx : x ≠ sep := h x (by simp)
    simp only [List.cons_append, pySplit, List.append_eq]
    rw [ih b (fun c hc => h c (List.mem_cons_of_mem x hc))]
    simp [hx]

theorem head_not_ws {a : Char} {t : PStr} (h : List.dropWhile pyWS (a :: t) = a :: t) :
    pyWS a = false := by
  by_cases hw : pyWS a = true
  · rw [List.dropWhile_cons, if_pos hw] at h
    have hl := (List.dropWhile_sublist (l := t) pyWS).length_le
    have := congrArg List.length h
    simp at this
    omega
  · simpa using hw

theorem dropWhile_append_stable {t r : PStr} (ht : t.dropWhile pyWS = t) (hne : t ≠ []) :
    (t ++ r).dropWhile pyWS = t ++ r := by
  cases t with
  | nil => exact absurd rfl hne
  | cons a t' =>
    have ha := head_not_ws ht
    simp [List.dropWhile_cons, ha]

theorem stripL_append_cons {t : PStr} (ht : t.dropWhile pyWS = t) (r : PStr) :
    pyStripL (t ++ ',' :: r) = t ++ ',' :: r := by
  cases t with
  | nil =>
    simp [pyStripL, List.dropWhile_cons, show pyWS ',' = false from rfl]
  | cons a t' =>
    have ha := head_not_ws ht
    simp [pyStripL, List.dropWhile_cons, ha]

theorem stripR_append {s u : PStr} (hu : u.reverse.dropWhile pyWS = u.reverse) (hne : u ≠ []) :
    pyStripR (s ++ u) = s ++ u := by
  have hne' : u.reverse ≠ [] := by
    simpa [List.reverse_eq_nil_iff] using hne
  rw [pyStripR, List.reverse_append, dropWhile_append_stable hu hne', List.reverse_append]
  simp

theorem pyStrip_stable {t : PStr} (h1 : t.dropWhile pyWS = t)
    (h2 : t.reverse.dropWhile pyWS = t.reverse) : pyStrip t = t := by
  rw [pyStrip, pyStripL, h1, pyStripR, h2, List.reverse_reverse]

theorem pyStrip_space_cons (l : PStr) : pyStrip (' ' :: l) = pyStrip l := by
  rw [pyStrip, pyStrip, pyStripL, pyStripL, List.dropWhile_cons]
  simp [show pyWS ' ' = true from rfl]

theorem label_not_prefix_comma {t r : PStr}
    (h : List.isPrefixOf "vehicle:".data (pyLower t) = false) :
    List.isPrefixOf "vehicle:".data (pyLower (t ++ ',' :: r)) = false := by
  by_contra hc
  rw [Bool.not_eq_false] at hc
  have hp : "vehicle:".data <+: pyLower (t ++ ',' :: r) := List.isPrefixOf_iff_prefix.mp hc
  rw [pyLower, List.map_append, show List.map Char.toLower (',' :: r) =
    ',' :: List.map Char.toLower r from rfl] at hp
  by_cases hle : 8 ≤ (List.map Char.toLower t).length
  · have hpt : "vehicle:".data <+: List.map Char.toLower t := by
      rw [List.prefix_iff_eq_take] at hp ⊢
      rw [hp, show ("vehicle:".data).length = 8 from rfl, List.take_append_eq_append_take,
        Nat.sub_eq_zero_of_le hle]
      simp
    rw [show pyLower t = List.map Char.toLower t from rfl] at h
    rw [List.isPrefixOf_iff_prefix.mpr hpt] at h
    cases h
  · have h8 : "vehicle:".data =
        ((List.map Char.toLower t) ++ ',' :: List.map Char.toLower r).take 8 := by
      rw [List.prefix_iff_eq_take] at hp
      rw [hp, show ("vehicle:".data).length = 8 from rfl]
    have hmem : (',' : Char) ∈ "vehicle:".data := by
      rw [h8, List.take_append_eq_append_take]
      have hsub : 8 - (List.map Char.toLower t).length =
          (8 - (List.map Char.toLower t).length - 1) + 1 := by omega
      rw [hsub, List.take_succ_cons]
      exact List.mem_append_right _ (List.mem_cons_self _ _)
    exact absurd hmem (by decide)

theorem vehParts_recon₂ (t l : PStr)
    (ht1 : t.dropWhile pyWS = t) (ht2 : t.reverse.dropWhile pyWS = t.reverse)
    (hl1 : l.dropWhile pyWS = l) (hl2 : l.reverse.dropWhile pyWS = l.reverse)
    (htc : ∀ c ∈ t, c ≠ ',') (hlc : ∀ c ∈ l, c ≠ ',')
    (hlab : List.isPrefixOf "vehicle:".data (pyLower t) = false) :
    vehParts (t ++ (", ".data ++ l)) = [t, l] := by
  rw [show (t ++ ((", ".data : PStr) ++ l)) = t ++ ',' :: ' ' :: l from rfl]
  by_cases hl0 : l = []
  · subst hl0
    have hs0 : pyStrip (t ++ ',' :: ' ' :: []) = t ++ ',' :: [] := by
      rw [pyStrip, stripL_append_cons ht1 (' ' :: [])]
      rw [pyStripR]
      rw [show ((t ++ ',' :: ' ' :: [] : PStr)).reverse = ' ' :: ',' :: t.reverse from by simp]
      rw [List.dropWhile_cons, if_pos (show pyWS ' ' = true from rfl)]
      rw [List.dropWhile_cons, if_neg (by decide)]
      simp
    have hlab2 := @label_not_prefix_comma t [] hlab
    have hsp1 := @pySplit_append ',' t [] htc
    simp only [vehParts, hs0, hlab2, Bool.false_eq_true, if_false, hsp1]
    simp [pySplit, pyStrip_stable ht1 ht2, show pyStrip ([] : PStr) = [] from rfl]
  · have hs0 : pyStrip (t ++ ',' :: ' ' :: l) = t ++ ',' :: ' ' :: l := by
      rw [pyStrip, stripL_append_cons ht1 (' ' :: l)]
      rw [show (t ++ ',' :: ' ' :: l : PStr) = (t ++ ',' :: ' ' :: []) ++ l from by simp]
      exact stripR_append hl2 hl0
    have hlab2 := @label_not_prefix_comma t (' ' :: l) hlab
    have hsp1 := @pySplit_append ',' t (' ' :: l) htc
    have hsp2 : pySplit ',' (' ' :: l) = [' ' :: l] := by
      apply pySplit_no_sep
      intro c hc
      rcases List.mem_cons.mp hc with rfl | hc'
      · decide
      · exact hlc c hc'
    simp only [vehParts, hs0, hlab2, Bool.false_eq_true, if_false, hsp1, hsp2]
    simp [pyStrip_stable ht1 ht2, pyStrip_space_cons, pyStrip_stable hl1 hl2]

theorem vehParts_recon₃ (t l u : PStr)
    (ht1 : t.dropWhile pyWS = t) (ht2 : t.reverse.dropWhile pyWS = t.reverse)
    (hl1 : l.dropWhile pyWS = l) (hl2 : l.reverse.dropWhile pyWS = l.reverse)
    (hu1 : u.dropWhile pyWS = u) (hu2 : u.reverse.dropWhile pyWS = u.reverse)
    (htc : ∀ c ∈ t, c ≠ ',') (hlc : ∀ c ∈ l, c ≠ ',') (huc : ∀ c ∈ u, c ≠ ',')
    (hlab : List.isPrefixOf "vehicle:".data (pyLower t) = false) :
    vehParts (t ++ (", ".data ++ (l ++ (", ".data ++ u)))) = [t, l, u] := by
  rw [show (t ++ ((", ".data : PStr) ++ (l ++ ((", ".data : PStr) ++ u)))) =
    t ++ ',' :: ' ' :: (l ++ ',' :: ' ' :: u) from rfl]
  have hspl : pySplit ',' (' ' :: l) = [' ' :: l] := by
    apply pySplit_no_sep
    intro c hc
    rcases List.mem_cons.mp hc with rfl | hc'
    · decide
    · exact hlc c hc'
  by_cases hu0 : u = []
  · subst hu0
    have hs0 : pyStrip (t ++ ',' :: ' ' :: (l ++ ',' :: ' ' :: [])) =
        t ++ ',' :: ' ' :: (l ++ ',' :: []) := by
      rw [pyStrip, stripL_append_cons ht1 _]
      rw [pyStripR]
      rw [show ((t ++ ',' :: ' ' :: (l ++ ',' :: ' ' :: []) : PStr)).reverse =
        ' ' :: ',' :: (l.reverse ++ (' ' :: ',' :: t.reverse)) from by simp]
      rw [List.dropWhile_cons, if_pos (show pyWS ' ' = true from rfl)]
      rw [List.dropWhile_cons, if_neg (by decide)]
      simp
    have hlab2 := @label_not_prefix_comma t (' ' :: (l ++ ',' :: [])) hlab
    have hsp1 := @pySplit_append ',' t (' ' :: (l ++ ',' :: [])) htc
    have hsp2 : pySplit ',' (' ' :: (l ++ ',' :: [])) = [' ' :: l, []] := by
      rw [show (' ' :: (l ++ ',' :: []) : PStr) = (' ' :: l) ++ ',' :: [] from by simp]
      rw [@pySplit_append ',' (' ' :: l) []
        (fun c hc => by
          rcases List.mem_cons.mp hc with rfl | hc'
          · decide
          · exact hlc c hc')]
      rfl
    simp only [vehParts, hs0, hlab2, Bool.false_eq_true, if_false, hsp1, hsp2]
    simp [pyStrip_stable ht1 ht2, pyStrip_space_cons, pyStrip_stable hl1 hl2,
      show pyStrip ([] : PStr) = [] from rfl]
  · have hs0 : pyStrip (t ++ ',' :: ' ' :: (l ++ ',' :: ' ' :: u)) =
        t ++ ',' :: ' ' :: (l ++ ',' :: ' ' :: u) := by
      rw [pyStrip, stripL_append_cons ht1 _]
      rw [show (t ++ ',' :: ' ' :: (l ++ ',' :: ' ' :: u) : PStr) =
        (t ++ ',' :: ' ' :: (l ++ ',' :: ' ' :: [])) ++ u from by simp]
      exact stripR_append hu2 hu0
    have hlab2 := @label_not_prefix_comma t (' ' :: (l ++ ',' :: ' ' :: u)) hlab
    have hsp1 := @pySplit_append ',' t (' ' :: (l ++ ',' :: ' ' :: u)) htc
    have hsp2 : pySplit ',' (' ' :: (l ++ ',' :: ' ' :: u)) = [' ' :: l, ' ' :: u] := by
      rw [show (' ' :: (l ++ ',' :: ' ' :: u) : PStr) = (' ' :: l) ++ ',' :: (' ' :: u) from
        by simp]
      rw [@pySplit_append ',' (' ' :: l) (' ' :: u)
        (fun c hc => by
          rcases List.mem_cons.mp hc with rfl | hc'
          · decide
          · exact hlc c hc')]
      rw [show pySplit ',' (' ' :: u) = [' ' :: u] from pySplit_no_sep
        (fun c hc => by
          rcases List.mem_cons.mp hc with rfl | hc'
          · decide
          · exact huc c hc')]
    simp only [vehParts, hs0, hlab2, Bool.false_eq_true, if_false, hsp1, hsp2]
    simp [pyStrip_stable ht1 ht2, pyStrip_space_cons, pyStrip_stable hl1 hl2,
      pyStrip_stable hu1 hu2]

theorem parse_recon₂ (t l : PStr)
    (ht1 : t.dropWhile pyWS = t) (ht2 : t.reverse.dropWhile pyWS = t.reverse)
    (hl1 : l.dropWhile pyWS = l) (hl2 : l.reverse.dropWhile pyWS = l.reverse)
    (htc : ∀ c ∈ t, c ≠ ',') (hlc : ∀ c ∈ l, c ≠ ',')
    (hlab : List.isPrefixOf "vehicle:".data (pyLower t) = false) :
    parse_vehicle_fields (t ++ (", ".data ++ l)) = (t, l, []) := by
  have hv := vehParts_recon₂ t l ht1 ht2 hl1 hl2 htc hlc hlab
  rw [show (t ++ ((", ".data : PStr) ++ l)) = t ++ ',' :: ' ' :: l from rfl] at hv
  simp [parse_vehicle_fields, hv]

theorem parse_recon₃ (t l u : PStr)
    (ht1 : t.dropWhile pyWS = t) (ht2 : t.reverse.dropWhile pyWS = t.reverse)
    (hl1 : l.dropWhile pyWS = l) (hl2 : l.reverse.dropWhile pyWS = l.reverse)
    (hu1 : u.dropWhile pyWS = u) (hu2 : u.reverse.dropWhile pyWS = u.reverse)
    (htc : ∀ c ∈ t, c ≠ ',') (hlc : ∀ c ∈ l, c ≠ ',') (huc : ∀ c ∈ u, c ≠ ',')
    (hlab : List.isPrefixOf "vehicle:".data (pyLower t) = false) :
    parse_vehicle_fields (t ++ (", ".data ++ (l ++ (", ".data ++ u)))) =
      (if pyIsDigitStr (u.filter (fun c => c ≠ ' ')) then (t, l, u) else (t, u, [])) := by
  have hv := vehParts_recon₃ t l u ht1 ht2 hl1 hl2 hu1 hu2 htc hlc huc hlab
  rw [show (t ++ ((", ".data : PStr) ++ (l ++ ((", ".data : PStr) ++ u)))) =
    t ++ ',' :: ' ' :: (l ++ ',' :: ' ' :: u) from rfl] at hv
  by_cases hd : pyIsDigitStr (u.filter (fun c => c ≠ ' ')) = true
  · simp [parse_vehicle_fields, hv, hd]
  · simp [parse_vehicle_fields, hv, hd]

/-- C9: ParseVehicleDescriptor is idempotent on already-normalized 2-
or 3-part inputs: for the triple produced from a normalized input
(trimmed comma-free parts, truck part not carrying a vehicle label),
re-parsing the reconstructed "truck, license" or
"truck, license, unit" string yields the same triple. -/
theorem c9_parse_vehicle_idempotent :
    ∀ t l u : PStr,
      t.dropWhile pyWS = t → t.reverse.dropWhile pyWS = t.reverse →
      l.dropWhile pyWS = l → l.reverse.dropWhile pyWS = l.reverse →
      u.dropWhile pyWS = u → u.reverse.dropWhile pyWS = u.reverse →
      (∀ c ∈ t, c ≠ ',') → (∀ c ∈ l, c ≠ ',') → (∀ c ∈ u, c ≠ ',') →
      List.isPrefixOf "vehicle:".data (pyLower t) = false →
      (parse_vehicle_fields (reconVehicle
          (parse_vehicle_fields (t ++ (", ".data ++ l))).1
          (parse_vehicle_fields (t ++ (", ".data ++ l))).2.1
          (parse_vehicle_fields (t ++ (", ".data ++ l))).2.2) =
        parse_vehicle_fields (t ++ (", ".data ++ l))) ∧
      (parse_vehicle_fields (reconVehicle
          (parse_vehicle_fields (t ++ (", ".data ++ (l ++ (", ".data ++ u))))).1
          (parse_vehicle_fields (t ++ (", ".data ++ (l ++ (", ".data ++ u))))).2.1
          (parse_vehicle_fields (t ++ (", ".data ++ (l ++ (", ".data ++ u))))).2.2) =
        parse_vehicle_fields (t ++ (", ".data ++ (l ++ (", ".data ++ u))))) := by
  intro t l u ht1 ht2 hl1 hl2 hu1 hu2 htc hlc huc hlab
  have h2 := parse_recon₂ t l ht1 ht2 hl1 hl2 htc hlc hlab
  have h3 := parse_recon₃ t l u ht1 ht2 hl1 hl2 hu1 hu2 htc hlc huc hlab
  constructor
  · rw [h2]
    simp only
    rw [show reconVehicle t l [] = t ++ (", ".data ++ l) from by simp [reconVehicle]]
    exact h2
  · rw [h3]
    by_cases hd : pyIsDigitStr (u.filter (fun c => c ≠ ' ')) = true
    · rw [if_pos hd]
      simp only
      have hune : u ≠ [] := by
        intro h0
        subst h0
        simp [pyIsDigitStr] at hd
      rw [show reconVehicle t l u = t ++ (", ".data ++ (l ++ (", ".data ++ u))) from by
        simp [reconVehicle, hune]]
      rw [h3, if_pos hd]
    · rw [if_neg hd]
      simp only
      rw [show reconVehicle t u [] = t ++ (", ".data ++ u) from by simp [reconVehicle]]
      exact parse_recon₂ t u ht1 ht2 hu1 hu2 htc huc hlab

/-- C9 witness: the two-part round trip at a concrete normalized
descriptor. -/
theorem c9_parse_vehicle_idempotent_witness :
    parse_vehicle_fields (reconVehicle
        (parse_vehicle_fields ("Ford F150".data ++ (", ".data ++ "ABC-123".data))).1
        (parse_vehicle_fields ("Ford F150".data ++ (", ".data ++ "ABC-123".data))).2.1
        (parse_vehicle_fields ("Ford F150".data ++ (", ".data ++ "ABC-123".data))).2.2) =
      parse_vehicle_fields ("Ford F150".data ++ (", ".data ++ "ABC-123".data)) :=
  (c9_parse_vehicle_idempotent "Ford F150".data "ABC-123".data "77".data
    (by decide) (by decide) (by decide) (by decide) (by decide) (by decide)
    (by decide) (by decide) (by decide) (by decide)).1

end Invoices
